import Mathlib

/-!
# Verification of the linuxstorybook EPUB scripts

Shallow embedding of the two pipelines of this repository:

* Pipeline A (`scripts/update-epub-metadata.js`): the metadata substitution
  engine (`updateMetadataTag` and the seven field updates in
  `updateEpubMetadata`), the contributor/date insertion steps, and the
  repackaging step (mimetype creation and zip-command choice).
* Pipeline B (the EPUB build script): HTML body extraction, chapter
  decomposition (`buildEPUB`), XHTML fragment emission (`htmlToXHTML`),
  navigation generation (`createNav`) and package generation (`createOPF`).

Strings are embedded as `List Char`.  The JavaScript regexes used by the
scripts are small and concrete, so each one is embedded as a deterministic
matcher that follows the regex's leftmost-match / greedy / lazy behaviour
exactly (`[^>]*` = maximal run of non-`>` characters followed by `>`;
`.*?` = minimal run of non-line-terminator characters before the closing
literal; flag `i` = ASCII case folding; flag `g` = repeated leftmost
replacement continuing after each match).
-/

namespace LSB

/-- ASCII lower-casing, the canonicalisation relevant to the `i` regex flag
for the ASCII patterns appearing in the scripts. -/
def asciiLower (c : Char) : Char :=
  if 'A' ≤ c ∧ c ≤ 'Z' then Char.ofNat (c.toNat + 32) else c

/-- Case-insensitive character comparison (pattern char first). -/
def ciEq (p c : Char) : Bool := asciiLower p == asciiLower c

/-- JavaScript regex line terminators (the characters `.` does not match):
LF, CR, LINE SEPARATOR (U+2028), PARAGRAPH SEPARATOR (U+2029). -/
def isLineTerm (c : Char) : Bool :=
  c == '\n' || c == '\r' || c.toNat == 0x2028 || c.toNat == 0x2029

/-- JavaScript whitespace (`\s`, also the set used by `String.prototype.trim`):
tab, VT, FF, space, NBSP, BOM, the Unicode space separators, and the line
terminators. -/
def isJsSpace (c : Char) : Bool :=
  c == ' ' || c == '\t' || c == '\n' || c == '\r' ||
  c.toNat == 11 || c.toNat == 12 ||
  c.toNat == 0xa0 || c.toNat == 0x1680 ||
  (0x2000 ≤ c.toNat && c.toNat ≤ 0x200a) ||
  c.toNat == 0x2028 || c.toNat == 0x2029 ||
  c.toNat == 0x202f || c.toNat == 0x205f || c.toNat == 0x3000 || c.toNat == 0xfeff

/-- If `pat` is literally (case-sensitively) a leading part of `s`, return
the remainder of `s`. -/
def litStrip : List Char → List Char → Option (List Char)
  | [], s => some s
  | _ :: _, [] => none
  | p :: ps, c :: cs => if p = c then litStrip ps cs else none

/-- Case-insensitive variant of `litStrip`. -/
def ciStrip : List Char → List Char → Option (List Char)
  | [], s => some s
  | _ :: _, [] => none
  | p :: ps, c :: cs => if ciEq p c then ciStrip ps cs else none

/-- First (leftmost) literal occurrence of `pat` in `s`: returns the part
before the occurrence and the part after it. -/
def findLit (pat : List Char) : List Char → Option (List Char × List Char)
  | [] => match litStrip pat [] with
    | some r => some ([], r)
    | none => none
  | c :: cs => match litStrip pat (c :: cs) with
    | some r => some ([], r)
    | none => (findLit pat cs).map fun pr => (c :: pr.1, pr.2)

/-- JavaScript `String.prototype.includes` for a literal needle. -/
def containsLit (s pat : List Char) : Bool := (findLit pat s).isSome

/-- Number of (possibly overlapping) positions of `s` at which `pat` occurs. -/
def countOccLit : List Char → List Char → Nat
  | [], pat => match litStrip pat [] with
    | some _ => 1
    | none => 0
  | c :: cs, pat =>
    (if (litStrip pat (c :: cs)).isSome then 1 else 0) + countOccLit cs pat

/-- JavaScript `s.replace(/pat/, rep)` for a literal pattern: replace the
first occurrence only; return `s` unchanged when there is none. -/
def replaceFirstLit (pat rep s : List Char) : List Char :=
  match findLit pat s with
  | none => s
  | some (pre, rest) => pre ++ rep ++ rest

/-- Fuelled worker for `splitLit`. -/
def splitLitGo (pat : List Char) : Nat → List Char → List (List Char)
  | 0, s => [s]
  | f + 1, s =>
    match findLit pat s with
    | none => [s]
    | some (pre, rest) => pre :: splitLitGo pat f rest

/-- JavaScript `s.split(/pat/)` for a literal (nonempty) pattern. -/
def splitLit (pat s : List Char) : List (List Char) := splitLitGo pat s.length s

/-- JavaScript `String.prototype.trim`. -/
def trimJs (s : List Char) : List Char :=
  ((s.dropWhile isJsSpace).reverse.dropWhile isJsSpace).reverse

/-! ## Pipeline A: the metadata substitution engine

Embedding of `updateMetadataTag` (update-epub-metadata.js, lines 87–99):

```js
const regex = new RegExp(`<${fullTag}[^>]*>.*?<\/${fullTag}>`, 'gi');
const newTag = `<${fullTag}${attributes}>${value}</${fullTag}>`;
if (regex.test(content)) return content.replace(regex, newTag);
else return content.replace(/<\/metadata>/, `    ${newTag}\n  </metadata>`);
```
-/

/-- The literal closing tag `</fullTag>`. -/
def closeOf (fullTag : List Char) : List Char := '<' :: '/' :: (fullTag ++ ['>'])

/-- Lazy scan of `.*?</fullTag>`: starting at the current position, find the
nearest closing tag reachable without crossing a line terminator, and return
the text after it.  `closer` is `closeOf fullTag`. -/
def lazyClose (closer : List Char) : List Char → Option (List Char)
  | [] => ciStrip closer []
  | c :: cs =>
    match ciStrip closer (c :: cs) with
    | some r => some r
    | none => if isLineTerm c then none else lazyClose closer cs

/-- Try to match `<fullTag[^>]*>.*?</fullTag>` (case-insensitively) starting
exactly at the beginning of `s`; on success return the text after the match. -/
def matchTagAt (fullTag : List Char) (s : List Char) : Option (List Char) :=
  match ciStrip ('<' :: fullTag) s with
  | none => none
  | some s1 =>
    match s1.dropWhile (fun c => c != '>') with
    | '>' :: s3 => lazyClose (closeOf fullTag) s3
    | _ => none

/-- Leftmost match of the tag regex in `s`: the text before the match and
the text after it. -/
def findTagSplit (fullTag : List Char) : List Char → Option (List Char × List Char)
  | [] => none
  | c :: cs =>
    match matchTagAt fullTag (c :: cs) with
    | some rest => some ([], rest)
    | none => (findTagSplit fullTag cs).map fun pr => (c :: pr.1, pr.2)

/-- Fuelled worker for the global (`g`-flag) replacement. -/
def tagGsubGo (fullTag rep : List Char) : Nat → List Char → List Char
  | 0, s => s
  | f + 1, s =>
    match findTagSplit fullTag s with
    | none => s
    | some (pre, rest) => pre ++ rep ++ tagGsubGo fullTag rep f rest

/-- JavaScript `content.replace(regex, newTag)` with the global tag regex:
every leftmost match is replaced, left to right, continuing after each
replacement. -/
def tagGsub (fullTag rep s : List Char) : List Char := tagGsubGo fullTag rep s.length s

/-- The closing metadata marker `</metadata>`. -/
def metadataClose : List Char := ("</metadata>").data

/-- `updateMetadataTag(content, namespace, tag, value, attributes)` with
`fullTag` standing for `namespace:tag`. -/
def updateMetadataTag (content fullTag attrs value : List Char) : List Char :=
  let newTag := ('<' :: fullTag) ++ attrs ++ ('>' :: value) ++ closeOf fullTag
  if (findTagSplit fullTag content).isSome then
    tagGsub fullTag newTag content
  else
    replaceFirstLit metadataClose
      (("    ").data ++ newTag ++ ("\n  ").data ++ metadataClose) content

/-! The fixed metadata record (update-epub-metadata.js, lines 10–19). -/

def titleV : List Char := ("فقط برای تفریح").data
def authorV : List Char := ("لینوس توروالدز و دیوید دیاموند").data
def translatorV : List Char := ("جادی میرمیرانی").data
def languageV : List Char := ("fa").data
def publisherV : List Char := ("LinuxStory.ir").data
def rightsV : List Char := ("CC0 1.0 Universal").data
def descriptionV : List Char := ("داستان زندگی لینوس توروالدز، خالق لینوکس").data
def subjectV : List Char := ("کامپیوتر، برنامه‌نویسی، لینوکس، نرم‌افزار آزاد").data

def tagTitle : List Char := ("dc:title").data
def tagCreator : List Char := ("dc:creator").data
def tagLanguage : List Char := ("dc:language").data
def tagPublisher : List Char := ("dc:publisher").data
def tagRights : List Char := ("dc:rights").data
def tagDescription : List Char := ("dc:description").data
def tagSubject : List Char := ("dc:subject").data

/-- The seven sequential field updates (lines 102–108). -/
def updateAllFields (content : List Char) : List Char :=
  let c1 := updateMetadataTag content tagTitle [] titleV
  let c2 := updateMetadataTag c1 tagCreator [] authorV
  let c3 := updateMetadataTag c2 tagLanguage [] languageV
  let c4 := updateMetadataTag c3 tagPublisher [] publisherV
  let c5 := updateMetadataTag c4 tagRights [] rightsV
  let c6 := updateMetadataTag c5 tagDescription [] descriptionV
  updateMetadataTag c6 tagSubject [] subjectV

/-- The translator marker checked before inserting the contributor. -/
def translatorMarker : List Char := ("ترجمه:").data

/-- The date marker checked before inserting the date. -/
def dateMarker : List Char := ("<dc:date>").data

/-- Contributor insertion (lines 111–116). -/
def addContributor (content : List Char) : List Char :=
  if containsLit content translatorMarker then content
  else
    replaceFirstLit metadataClose
      (("    <dc:contributor>ترجمه: ").data ++ translatorV ++
        ("</dc:contributor>\n  ").data ++ metadataClose) content

/-- Date insertion (lines 119–125); `today` is the date stamp computed once
per run. -/
def addDate (today content : List Char) : List Char :=
  if containsLit content dateMarker then content
  else
    replaceFirstLit metadataClose
      (("    <dc:date>").data ++ today ++ ("</dc:date>\n  ").data ++ metadataClose) content

/-- The contributor-then-date insertion steps, in source order. -/
def contribDate (today content : List Char) : List Char :=
  addDate today (addContributor content)

/-! ## Pipeline A: repackaging (lines 134–152)

The scratch directory is modelled as an association list of
(file name, file content).  The external `zip` tool is not part of this
repository; its effect on entry order and compression is modelled from the
spec's archive-packager contract. -/

def mimetypeName : List Char := ("mimetype").data

def epubMime : List Char := ("application/epub+zip").data

/-- One entry of the produced archive. -/
structure ZEntry where
  name : List Char
  data : List Char
  compressed : Bool
deriving DecidableEq

/-- Look up the content of a file by name (first match). -/
def lookupFs (fs : List (List Char × List Char)) (n : List Char) : Option (List Char) :=
  match fs with
  | [] => none
  | e :: t => if e.1 = n then some e.2 else lookupFs t n

/-- `fs.existsSync` / `files.includes(name)` over the directory listing. -/
def hasName (fs : List (List Char × List Char)) (n : List Char) : Bool :=
  match fs with
  | [] => false
  | e :: t => e.1 == n || hasName t n

/-- Lines 135–138: create the mimetype file if it does not exist. -/
def ensureMimetype (fs : List (List Char × List Char)) : List (List Char × List Char) :=
  if hasName fs mimetypeName then fs
  else fs ++ [(mimetypeName, epubMime)]

/-- Modelled from the spec: the external archive-creation command of the
conformant branch (`zip -X0 out mimetype && zip -rg out * -x mimetype`) —
"archive the `mimetype` file alone first, uncompressed; then add every
other file/directory recursively, compressed, excluding `mimetype` from
the second pass". -/
def zipConformantA (fs : List (List Char × List Char)) : List ZEntry :=
  ⟨mimetypeName, (lookupFs fs mimetypeName).getD [], false⟩ ::
    (fs.filter fun e => e.1 != mimetypeName).map fun e => ⟨e.1, e.2, true⟩

/-- Modelled from the spec: the external archive-creation command of the
fallback branch (`zip -r out *`) — "fall back to a plain recursive archive
(format-non-conformant but functional)". -/
def zipFallbackA (fs : List (List Char × List Char)) : List ZEntry :=
  fs.map fun e => ⟨e.1, e.2, true⟩

/-- Lines 134–152: ensure the mimetype file, then choose the zip command by
whether the directory listing contains `mimetype`. -/
def repackage (fs : List (List Char × List Char)) : List ZEntry :=
  let fs' := ensureMimetype fs
  if hasName fs' mimetypeName then zipConformantA fs'
  else zipFallbackA fs'

/-! ## Pipeline B: chapter decomposition (buildEPUB, lines 414–486) -/

/-- One chapter record: `{ chapter, title, filename, content }`. -/
structure Chapter where
  chapter : List Char
  title : List Char
  filename : List Char
  content : List Char
deriving DecidableEq

def h1Sep : List Char := ("<h1 >").data

def h2Sep : List Char := ("<h2 >").data

def hrSep : List Char := ("<hr><b>فقط برای تفریح").data

/-- The regex `^([^<]+)<\/hN[^>]*>` applied at the start of a part: the
heading text (group 1) and the remaining content after the full match.
`closeLit` is the literal `</h1` or `</h2`. -/
def matchSec (closeLit : List Char) (part : List Char) : Option (List Char × List Char) :=
  let name := part.takeWhile fun c => c != '<'
  if name.isEmpty then none
  else
    match litStrip closeLit (part.dropWhile fun c => c != '<') with
    | none => none
    | some r =>
      match r.dropWhile (fun c => c != '>') with
      | '>' :: rest => some (name, rest)
      | _ => none

/-- Truncate a section's content at the first occurrence of `<h2 >`, `<h1 >`
or the end-of-book separator (the regex `/<h2 >|<h1 >|<hr><b>فقط برای تفریح/`,
lines 459–462). -/
def truncEnd : List Char → List Char
  | [] => []
  | c :: cs =>
    if (litStrip h2Sep (c :: cs)).isSome || (litStrip h1Sep (c :: cs)).isSome ||
        (litStrip hrSep (c :: cs)).isSome then []
    else c :: truncEnd cs

def chapterFileName (n : Nat) : List Char :=
  ("chapter").data ++ (Nat.repr n).data ++ (".xhtml").data

/-- Fuelled worker for `gsub`. -/
def gsubGo (m : List Char → Option (List Char × List Char)) : Nat → List Char → List Char
  | 0, s => s
  | _ + 1, [] => []
  | f + 1, c :: cs =>
    match m (c :: cs) with
    | some (rep, rest) => rep ++ gsubGo m f rest
    | none => c :: gsubGo m f cs

/-- Global regex replacement for the normalisation passes of `htmlToXHTML`:
`m` matches one pattern occurrence at the current position and returns its
replacement and the rest of the input. -/
def gsub (m : List Char → Option (List Char × List Char)) (s : List Char) : List Char :=
  gsubGo m s.length s

/-- `/<!DOCTYPE[^>]*>/gi` removed. -/
def mDoctype (s : List Char) : Option (List Char × List Char) :=
  match ciStrip (("<!DOCTYPE").data) s with
  | none => none
  | some r =>
    match r.dropWhile (fun c => c != '>') with
    | '>' :: rest => some ([], rest)
    | _ => none

/-- `/<br>/gi` → `<br/>`. -/
def mBr (s : List Char) : Option (List Char × List Char) :=
  (ciStrip (("<br>").data) s).map fun r => (("<br/>").data, r)

/-- `/<hr>/gi` → `<hr/>`. -/
def mHr (s : List Char) : Option (List Char × List Char) :=
  (ciStrip (("<hr>").data) s).map fun r => (("<hr/>").data, r)

/-- `/<TAG([^>]*?)>/gi` → `<TAG$1/>` for `img`, `meta`, `link`. -/
def mSelfClose (opener : List Char) (s : List Char) : Option (List Char × List Char) :=
  match ciStrip opener s with
  | none => none
  | some r =>
    let inner := r.takeWhile fun c => c != '>'
    match r.dropWhile (fun c => c != '>') with
    | '>' :: rest => some (opener ++ inner ++ ("/>").data, rest)
    | _ => none

/-- `/&nbsp;/gi` → `&#160;`. -/
def mNbsp (s : List Char) : Option (List Char × List Char) :=
  (ciStrip (("&nbsp;").data) s).map fun r => (("&#160;").data, r)

/-- `/&copy;/gi` → `&#169;`. -/
def mCopy (s : List Char) : Option (List Char × List Char) :=
  (ciStrip (("&copy;").data) s).map fun r => (("&#169;").data, r)

/-- The normalisation part of `htmlToXHTML` (lines 350–364), passes in
source order. -/
def normalizeHtml (html : List Char) : List Char :=
  let h1 := gsub mDoctype html
  let h2 := gsub mBr h1
  let h3 := gsub mHr h2
  let h4 := gsub (mSelfClose (("<img").data)) h3
  let h5 := gsub (mSelfClose (("<meta").data)) h4
  let h6 := gsub (mSelfClose (("<link").data)) h5
  let h7 := gsub mNbsp h6
  gsub mCopy h7

/-- The fixed XHTML shell of `htmlToXHTML` (lines 366–379). -/
def xhtmlShellOpen : List Char :=
  ("<?xml version=\"1.0\" encoding=\"UTF-8\"?>\n<!DOCTYPE html>\n<html xmlns=\"http://www.w3.org/1999/xhtml\" xml:lang=\"fa\" dir=\"rtl\">\n<head>\n  <meta charset=\"UTF-8\"/>\n  <title>").data

def xhtmlShellMid : List Char :=
  ("</title>\n  <link rel=\"stylesheet\" type=\"text/css\" href=\"../css/style.css\"/>\n</head>\n<body>\n  <div class=\"chapter\">\n").data

def xhtmlShellTail : List Char :=
  ("\n  </div>\n</body>\n</html>").data

/-- `htmlToXHTML(html, title)` (lines 350–382). -/
def htmlToXHTML (html title : List Char) : List Char :=
  xhtmlShellOpen ++ title ++ xhtmlShellMid ++ normalizeHtml html ++ xhtmlShellTail

/-- The string passed to `htmlToXHTML` for one record (line 479):
`` `<h1>${chapterName}</h1>\n<h2>${title}</h2>\n${content}` ``. -/
def headedContent (chapName title content : List Char) : List Char :=
  ("<h1>").data ++ chapName ++ ("</h1>\n<h2>").data ++ title ++
    ("</h2>\n").data ++ content

/-- Inner loop of `buildEPUB` (lines 448–485): one `<h2 >`-split part after
another; `idx` is the value of `chapterIndex` so far.  Returns the final
counter, the chapter records, and the written files (name, content). -/
def procH2s (chapName : List Char) (idx : Nat) :
    List (List Char) → Nat × List Chapter × List (List Char × List Char)
  | [] => (idx, [], [])
  | part :: parts =>
    match matchSec (("</h2").data) part with
    | none => procH2s chapName idx parts
    | some (title0, rest) =>
      let title := trimJs title0
      let content := trimJs (truncEnd rest)
      if content.isEmpty then procH2s chapName idx parts
      else
        let fn := chapterFileName (idx + 1)
        let r := procH2s chapName (idx + 1) parts
        (r.1, ⟨chapName, title, fn, content⟩ :: r.2.1,
          (fn, htmlToXHTML (headedContent chapName title content) title) :: r.2.2)

/-- Outer loop of `buildEPUB` (lines 435–486): one `<h1 >`-split part after
another. -/
def procH1s (idx : Nat) :
    List (List Char) → Nat × List Chapter × List (List Char × List Char)
  | [] => (idx, [], [])
  | part :: parts =>
    match matchSec (("</h1").data) part with
    | none => procH1s idx parts
    | some (name0, rest) =>
      let chapName := trimJs name0
      let inner := procH2s chapName idx ((splitLit h2Sep rest).drop 1)
      let outer := procH1s inner.1 parts
      (outer.1, inner.2.1 ++ outer.2.1, inner.2.2 ++ outer.2.2)

/-- Chapter decomposition of a body: split on `<h1 >`, skip the preamble
part, and run the nested loops with `chapterIndex = 0`. -/
def extractAll (bodyContent : List Char) :
    Nat × List Chapter × List (List Char × List Char) :=
  procH1s 0 ((splitLit h1Sep bodyContent).drop 1)

/-- The chapter records of a body. -/
def extractChapters (bodyContent : List Char) : List Chapter :=
  (extractAll bodyContent).2.1

/-- The emitted chapter files of a body. -/
def extractFiles (bodyContent : List Char) : List (List Char × List Char) :=
  (extractAll bodyContent).2.2

/-! Body extraction (lines 424–428): `/<body[^>]*>([\s\S]*?)<\/body\s*>/`,
case-sensitive, group 1 = the body content. -/

/-- The closing part `<\/body\s*>` tried at the current position. -/
def bodyCloseAt (s : List Char) : Option (List Char) :=
  match litStrip (("</body").data) s with
  | none => none
  | some r =>
    match r.dropWhile isJsSpace with
    | '>' :: rest => some rest
    | _ => none

/-- Lazy scan of `([\s\S]*?)<\/body\s*>`: the group-1 text and the rest. -/
def lazyBodyClose : List Char → Option (List Char × List Char)
  | [] => none
  | c :: cs =>
    match bodyCloseAt (c :: cs) with
    | some rest => some ([], rest)
    | none => (lazyBodyClose cs).map fun pr => (c :: pr.1, pr.2)

/-- Try the whole body regex at the current position. -/
def matchBodyAt (s : List Char) : Option (List Char × List Char) :=
  match litStrip (("<body").data) s with
  | none => none
  | some s1 =>
    match s1.dropWhile (fun c => c != '>') with
    | '>' :: s3 => lazyBodyClose s3
    | _ => none

/-- Leftmost match of the body regex: group 1 (the body content). -/
def findBody : List Char → Option (List Char)
  | [] => none
  | c :: cs =>
    match matchBodyAt (c :: cs) with
    | some pr => some pr.1
    | none => findBody cs

/-- The chapter-producing tail of `buildEPUB` on the full HTML text: exits
with status 1 ("Could not find body content") when the body regex does not
match; otherwise decomposes the body into records and files. -/
def buildFromHtml (allHtml : List Char) :
    Except Nat (List Chapter × List (List Char × List Char)) :=
  match findBody allHtml with
  | none => Except.error 1
  | some inner => Except.ok ((extractAll inner).2)

/-! ## Pipeline B: navigation document (createNav, lines 299–347) -/

/-- One group block of the navigation list (the template appended to
`navItems` at a group boundary and at the end). -/
def navBlockStr (file cur items : List Char) : List Char :=
  ("      <li><a href=\"chapters/").data ++ file ++ ("\">").data ++ cur ++
    ("</a>\n        <ol>\n").data ++ items ++ ("        </ol>\n      </li>\n").data

/-- One chapter line of the navigation list (appended to `chapterItems`). -/
def navItemStr (ch : Chapter) : List Char :=
  ("          <li><a href=\"chapters/").data ++ ch.filename ++ ("\">").data ++
    ch.title ++ ("</a></li>\n").data

/-- `chapters[index-1].filename` resp. `chapters[chapters.length-1].filename`;
the `none` default is unreachable because the flush is guarded by
`currentChapter !== ''`. -/
def prevFile : Option Chapter → List Char
  | none => []
  | some p => p.filename

/-- The `forEach` of `createNav` with its state: accumulated `navItems`,
`currentChapter`, `chapterItems`, and the previously processed record. -/
def navGo (nav cur items : List Char) (prev : Option Chapter) :
    List Chapter → List Char
  | [] => if cur.isEmpty then nav else nav ++ navBlockStr (prevFile prev) cur items
  | c :: cs =>
    if c.chapter = cur then navGo nav cur (items ++ navItemStr c) (some c) cs
    else
      navGo (if cur.isEmpty then nav else nav ++ navBlockStr (prevFile prev) cur items)
        c.chapter (navItemStr c) (some c) cs

/-- The `navItems` string generated by `createNav`. -/
def navItemsOf (chs : List Chapter) : List Char := navGo [] [] [] none chs

def navDocOpen : List Char :=
  ("<?xml version=\"1.0\" encoding=\"UTF-8\"?>\n<!DOCTYPE html>\n<html xmlns=\"http://www.w3.org/1999/xhtml\" xmlns:epub=\"http://www.idpf.org/2007/ops\" xml:lang=\"fa\" dir=\"rtl\">\n<head>\n  <meta charset=\"UTF-8\"/>\n  <title>فهرست</title>\n  <link rel=\"stylesheet\" type=\"text/css\" href=\"css/style.css\"/>\n</head>\n<body>\n  <nav epub:type=\"toc\">\n    <h1>فهرست</h1>\n    <ol>\n").data

def navDocTail : List Char :=
  ("    </ol>\n  </nav>\n</body>\n</html>").data

/-- The full navigation document written by `createNav`. -/
def createNav (chs : List Chapter) : List Char :=
  navDocOpen ++ navItemsOf chs ++ navDocTail

/-- Specification-side reading of the navigation list: one nested ordered
list per maximal run of consecutive records sharing a chapter-group, the
group link pointing at the run's last record; a fresh run starts whenever a
record's group differs from the immediately preceding record's group. -/
def specNavRun (cur items : List Char) (last : Chapter) : List Chapter → List Char
  | [] => navBlockStr last.filename cur items
  | c :: cs =>
    if c.chapter = cur then specNavRun cur (items ++ navItemStr c) c cs
    else navBlockStr last.filename cur items ++ specNavRun c.chapter (navItemStr c) c cs

/-- Specification-side navigation list (see `specNavRun`). -/
def specNav : List Chapter → List Char
  | [] => []
  | c :: cs => specNavRun c.chapter (navItemStr c) c cs

/-! ## Pipeline B: package document (createOPF, lines 251–296) -/

def navManifestLine : List Char :=
  ("    <item id=\"nav\" href=\"nav.xhtml\" media-type=\"application/xhtml+xml\" properties=\"nav\"/>\n").data

def cssManifestLine : List Char :=
  ("    <item id=\"css\" href=\"css/style.css\" media-type=\"text/css\"/>\n").data

/-- The manifest item line for the chapter with 1-based index `n`. -/
def itemLineOf (n : Nat) (ch : Chapter) : List Char :=
  ("    <item id=\"chapter").data ++ (Nat.repr n).data ++ ("\" href=\"chapters/").data ++
    ch.filename ++ ("\" media-type=\"application/xhtml+xml\"/>\n").data

/-- The spine itemref line for the chapter with 1-based index `n`. -/
def refLineOf (n : Nat) : List Char :=
  ("    <itemref idref=\"chapter").data ++ (Nat.repr n).data ++ ("\"/>\n").data

/-- The `forEach` of `createOPF`, accumulating the chapter part of
`manifest` and `spine`; `n` is the 1-based index of the next chapter. -/
def opfAcc : Nat → List Chapter → List Char × List Char
  | _, [] => ([], [])
  | n, ch :: t =>
    let r := opfAcc (n + 1) t
    (itemLineOf n ch ++ r.1, refLineOf n ++ r.2)

def navSpineLine : List Char := ("    <itemref idref=\"nav\" linear=\"no\"/>\n").data

def opfHead (ident date modified : List Char) : List Char :=
  ("<?xml version=\"1.0\" encoding=\"UTF-8\"?>\n<package xmlns=\"http://www.idpf.org/2007/opf\" version=\"3.0\" unique-identifier=\"uid\">\n  <metadata xmlns:dc=\"http://purl.org/dc/elements/1.1/\">\n    <dc:identifier id=\"uid\">").data ++
    ident ++ ("</dc:identifier>\n    <dc:title>").data ++ titleV ++
    ("</dc:title>\n    <dc:creator>").data ++ authorV ++
    ("</dc:creator>\n    <dc:contributor>ترجمه: ").data ++ translatorV ++
    ("</dc:contributor>\n    <dc:language>").data ++ languageV ++
    ("</dc:language>\n    <dc:publisher>").data ++ publisherV ++
    ("</dc:publisher>\n    <dc:rights>").data ++ rightsV ++
    ("</dc:rights>\n    <dc:description>").data ++ descriptionV ++
    ("</dc:description>\n    <dc:subject>").data ++ subjectV ++
    ("</dc:subject>\n    <dc:date>").data ++ date ++
    ("</dc:date>\n    <meta property=\"dcterms:modified\">").data ++ modified ++
    ("</meta>\n    <meta name=\"apple:specified-fonts\" content=\"true\"/>\n    <meta name=\"ibooks:version\" content=\"1.0\"/>\n  </metadata>\n  \n  <manifest>\n").data

def opfMid : List Char :=
  ("  </manifest>\n  \n  <spine page-progression-direction=\"rtl\">\n").data

def opfTail : List Char := ("  </spine>\n</package>").data

/-- The package document written by `createOPF`; `ident`, `date` and
`modified` stand for the run-time identifier and date stamps. -/
def createOPF (ident date modified : List Char) (chs : List Chapter) : List Char :=
  opfHead ident date modified ++ navManifestLine ++
    (cssManifestLine ++ (opfAcc 1 chs).1) ++ opfMid ++
    navSpineLine ++ (opfAcc 1 chs).2 ++ opfTail

/-- Specification-side manifest: the navigation item, the stylesheet item,
and one item per chapter in record order. -/
def specManifestItems (chs : List Chapter) : List (List Char) :=
  navManifestLine :: cssManifestLine ::
    (List.enumFrom 1 chs).map fun p => itemLineOf p.1 p.2

/-- Specification-side spine: the non-linear navigation entry first, then
the chapter ids `chapter1`, `chapter2`, … in record order. -/
def specSpineItems (chs : List Chapter) : List (List Char) :=
  navSpineLine :: (List.range chs.length).map fun i => refLineOf (i + 1)

/-! ## Pipeline B: mimetype and archive (lines 43–50, 496–504) -/

/-- `createMimetype` / `fs.writeFileSync` with overwrite: set the content of
file `n` to `c`. -/
def writeFile (n c : List Char) (fs : List (List Char × List Char)) :
    List (List Char × List Char) :=
  if hasName fs n then
    fs.map fun e => if e.1 = n then (e.1, c) else e
  else fs ++ [(n, c)]

/-- Whether a file is under the directories passed to the second zip phase. -/
def includedB (nm : List Char) : Bool :=
  (litStrip (("META-INF/").data) nm).isSome || (litStrip (("OEBPS/").data) nm).isSome

/-- Modelled from the spec: the external archive-creation command of the
build pipeline (`zip -X0 out mimetype && zip -rg out META-INF OEBPS`) —
store-then-append: the `mimetype` file alone first, uncompressed, then the
two content directories recursively, compressed. -/
def pipeBArchive (fs : List (List Char × List Char)) : List ZEntry :=
  ⟨mimetypeName, (lookupFs fs mimetypeName).getD [], false⟩ ::
    (fs.filter fun e => includedB e.1).map fun e => ⟨e.1, e.2, true⟩

/-! ## Specification-side notions used by the theorems -/

/-- A complete single metadata element `<tag>v</tag>`; with empty attributes
this is exactly the `newTag` string built by `updateMetadataTag`. -/
def elemCore (tag v : List Char) : List Char :=
  '<' :: (tag ++ '>' :: (v ++ closeOf tag))

/-- One metadata element on a line of its own. -/
def elemLine (tag v : List Char) : List Char := elemCore tag v ++ ['\n']

def mdOpen : List Char := ("<metadata>\n").data

def mdCloseLine : List Char := ("</metadata>\n").data

/-- A package-metadata document in canonical form: a metadata block holding
each of the seven updated fields exactly once, one single-line element per
field. -/
def mkDoc (t c l p r d s : List Char) : List Char :=
  mdOpen ++ elemLine tagTitle t ++ elemLine tagCreator c ++
    elemLine tagLanguage l ++ elemLine tagPublisher p ++ elemLine tagRights r ++
    elemLine tagDescription d ++ elemLine tagSubject s ++ mdCloseLine

/-- A metadata block holding none of the seven fields. -/
def emptyMd : List Char := ("<metadata>\n</metadata>\n").data

/-- A field value free of tag-opening characters and line terminators (the
form every real metadata value has). -/
def valueClean (v : List Char) : Bool :=
  v.all fun ch => !ciEq '<' ch && !isLineTerm ch

/-- Decides, from `s` alone, that the case-insensitive prefix test of `pat`
fails at the start of `s ++ r` for every continuation `r`. -/
def ciMismatch : List Char → List Char → Bool
  | [], _ => false
  | _ :: _, [] => false
  | p :: ps, c :: cs => if ciEq p c then ciMismatch ps cs else true

/-- Decides, from the segment alone, that no match of the tag regex can
start at any position of the segment, for every continuation. -/
def segAllFail (tag : List Char) : List Char → Bool
  | [] => true
  | c :: cs => ciMismatch ('<' :: tag) (c :: cs) && segAllFail tag cs

/-- The scan of `findTagSplit` passes over `A` without finding a match
start, whatever follows. -/
def skipsP (tag A : List Char) : Prop :=
  ∀ r, findTagSplit tag (A ++ r) =
    (findTagSplit tag r).map fun pr => (A ++ pr.1, pr.2)

/-- The contiguous filename sequence `chapter(idx+1).xhtml`, …,
`chapter(idx+n).xhtml`. -/
def fileNames (idx : Nat) : Nat → List (List Char)
  | 0 => []
  | n + 1 => chapterFileName (idx + 1) :: fileNames (idx + 1) n

/-- A record sequence with a non-contiguously repeated chapter-group
(A, A, B, A). -/
def navSample : List Chapter :=
  [⟨("A").data, ("One").data, ("chapter1.xhtml").data, ("x").data⟩,
   ⟨("A").data, ("Two").data, ("chapter2.xhtml").data, ("x").data⟩,
   ⟨("B").data, ("Three").data, ("chapter3.xhtml").data, ("x").data⟩,
   ⟨("A").data, ("Four").data, ("chapter4.xhtml").data, ("x").data⟩]

/-- A single record whose chapter-group name is empty. -/
def navEmptyGroup : List Chapter :=
  [⟨[], ("T").data, ("chapter1.xhtml").data, ("x").data⟩]

/-- The seven updated fields with their new values, in update order. -/
def sevenFields : List (List Char × List Char) :=
  [(tagTitle, titleV), (tagCreator, authorV), (tagLanguage, languageV),
   (tagPublisher, publisherV), (tagRights, rightsV),
   (tagDescription, descriptionV), (tagSubject, subjectV)]

/-- A package-metadata document in which the title field occurs twice. -/
def dupDoc : List Char :=
  ("<metadata>\n<dc:title>a</dc:title>\n<dc:title>b</dc:title>\n</metadata>\n").data

/-! # Theorems

## Archive invariants (claims C2 and C9) -/

theorem hasName_append_self (fs : List (List Char × List Char)) (n c : List Char) :
    hasName (fs ++ [(n, c)]) n = true := by
  induction fs with
  | nil => simp [hasName]
  | cons e t ih => simp [hasName, ih]

theorem ensure_hasName (fs : List (List Char × List Char)) :
    hasName (ensureMimetype fs) mimetypeName = true := by
  unfold ensureMimetype
  by_cases h : hasName fs mimetypeName
  · simp [h]
  · simp [h, hasName_append_self]

theorem repackage_eq (fs : List (List Char × List Char)) :
    repackage fs = zipConformantA (ensureMimetype fs) := by
  unfold repackage
  simp [ensure_hasName fs]

theorem lookup_append_missing (fs : List (List Char × List Char)) (n c : List Char)
    (h : hasName fs n = false) : lookupFs (fs ++ [(n, c)]) n = some c := by
  induction fs with
  | nil => simp [lookupFs]
  | cons e t ih =>
    simp only [hasName, Bool.or_eq_false_iff, beq_eq_false_iff_ne, ne_eq] at h
    simp [lookupFs, h.1, ih h.2]

theorem lookup_ensure_missing (fs : List (List Char × List Char))
    (h : hasName fs mimetypeName = false) :
    lookupFs (ensureMimetype fs) mimetypeName = some epubMime := by
  simp [ensureMimetype, h, lookup_append_missing _ _ _ h]

theorem lookup_map_replace (fs : List (List Char × List Char)) (n c : List Char)
    (h : hasName fs n = true) :
    lookupFs (fs.map fun e => if e.1 = n then (e.1, c) else e) n = some c := by
  induction fs with
  | nil => simp [hasName] at h
  | cons e t ih =>
    by_cases he : e.1 = n
    · simp [lookupFs, he]
    · have h' : hasName t n = true := by
        simpa [hasName, beq_eq_false_iff_ne, he] using h
      simp [lookupFs, he, ih h']

theorem lookup_writeFile (n c : List Char) (fs : List (List Char × List Char)) :
    lookupFs (writeFile n c fs) n = some c := by
  unfold writeFile
  by_cases h : hasName fs n
  · simp [h, lookup_map_replace _ _ _ h]
  · simp [h, lookup_append_missing _ _ _ (by simpa using h)]

/-- Claim C9: in the metadata-patch pipeline a `mimetype` file is
unconditionally present after the creation step, so the conformant zip
branch is always taken and the plain-recursive fallback is unreachable. -/
theorem claim_C9 (fs : List (List Char × List Char)) :
    hasName (ensureMimetype fs) mimetypeName = true ∧
    repackage fs = zipConformantA (ensureMimetype fs) :=
  ⟨ensure_hasName fs, repackage_eq fs⟩

/-- Counterexample to claim C2 as stated: when the unpacked input already
contains a `mimetype` file with different bytes, the metadata-patch
pipeline's archive keeps those bytes, so the first entry's content is not
`application/epub+zip`. -/
theorem claim_C2_counterexample :
    (repackage [(mimetypeName, ("bogus").data)]).head? =
      some ⟨mimetypeName, ("bogus").data, false⟩ ∧
    ("bogus").data ≠ epubMime := by
  constructor
  · decide
  · decide

/-- Claim C2, amended: for both pipelines the archive's first entry is
always a file named exactly `mimetype` stored without compression; its
content is `application/epub+zip` in the build pipeline always, and in the
metadata-patch pipeline whenever the unpacked input did not already contain
a `mimetype` file (an existing file's bytes are preserved verbatim). -/
theorem claim_C2 (fsA fsB : List (List Char × List Char)) :
    (repackage fsA).head?.map ZEntry.name = some mimetypeName ∧
    (repackage fsA).head?.map ZEntry.compressed = some false ∧
    (hasName fsA mimetypeName = false →
      (repackage fsA).head?.map ZEntry.data = some epubMime) ∧
    (pipeBArchive (writeFile mimetypeName epubMime fsB)).head? =
      some ⟨mimetypeName, epubMime, false⟩ := by
  refine ⟨?_, ?_, ?_, ?_⟩
  · rw [repackage_eq]; simp [zipConformantA]
  · rw [repackage_eq]; simp [zipConformantA]
  · intro h
    rw [repackage_eq]
    simp [zipConformantA, lookup_ensure_missing fsA h]
  · simp [pipeBArchive, lookup_writeFile]

theorem claim_C2_witness :
    hasName ([] : List (List Char × List Char)) mimetypeName = false ∧
    (repackage []).head?.map ZEntry.data = some epubMime :=
  ⟨by decide, (claim_C2 [] []).2.2.1 (by decide)⟩

/-! ## Chapter decomposition, concrete scenario (claim C3) -/

/-- Claim C3: the concrete two-chapter body decomposes into exactly the
three records `(A, One, chapter1.xhtml, text1)`, `(A, Two, chapter2.xhtml,
text2)`, `(B, Three, chapter3.xhtml, text3)`, in document order. -/
theorem claim_C3 :
    extractChapters (("<h1 >A</h1><h2 >One</h2>text1<h2 >Two</h2>text2<h1 >B</h1><h2 >Three</h2>text3").data) =
      [⟨("A").data, ("One").data, ("chapter1.xhtml").data, ("text1").data⟩,
       ⟨("A").data, ("Two").data, ("chapter2.xhtml").data, ("text2").data⟩,
       ⟨("B").data, ("Three").data, ("chapter3.xhtml").data, ("text3").data⟩] := by
  decide

/-! ## Missing body content (claim C8) -/

/-- Claim C8: when the body regex finds no match in the input HTML, the
build reports the failure and exits with status 1, producing no chapter
records and no archive (the error outcome carries nothing else). -/
theorem claim_C8 (allHtml : List Char) (h : findBody allHtml = none) :
    buildFromHtml allHtml = Except.error 1 := by
  simp [buildFromHtml, h]

theorem claim_C8_witness :
    findBody (("no body here").data) = none ∧
    buildFromHtml (("no body here").data) = Except.error 1 :=
  ⟨by decide, claim_C8 _ (by decide)⟩

/-! ## Contiguous chapter numbering and emitted files (claims C4 and C10) -/

theorem fileNames_add (a : Nat) : ∀ (idx b : Nat),
    fileNames idx (a + b) = fileNames idx a ++ fileNames (idx + a) b := by
  induction a with
  | zero => intro idx b; simp [fileNames]
  | succ a ih =>
    intro idx b
    rw [Nat.succ_add]
    simp only [fileNames, ih (idx + 1) b, List.cons_append]
    have harg : idx + 1 + a = idx + (a + 1) := by omega
    rw [harg]

theorem fileNames_range (n : Nat) : ∀ idx : Nat,
    fileNames idx n = (List.range n).map fun k => chapterFileName (idx + k + 1) := by
  induction n with
  | zero => intro idx; simp [fileNames]
  | succ n ih =>
    intro idx
    rw [List.range_succ_eq_map]
    simp only [fileNames, List.map_cons, List.map_map, Nat.add_zero]
    have harg : ((fun k => chapterFileName (idx + k + 1)) ∘ Nat.succ) =
        fun k => chapterFileName (idx + 1 + k + 1) := by
      funext k
      simp only [Function.comp]
      congr 1
      omega
    rw [harg, ih (idx + 1)]

/-- The file written for one record (line 479): the record's content
prefixed with regenerated `<h1>`/`<h2>` headings, normalised and wrapped. -/
theorem procH2s_spec (chap : List Char) (parts : List (List Char)) : ∀ idx : Nat,
    (procH2s chap idx parts).1 = idx + (procH2s chap idx parts).2.1.length ∧
    (procH2s chap idx parts).2.1.map Chapter.filename =
      fileNames idx (procH2s chap idx parts).2.1.length ∧
    (∀ r ∈ (procH2s chap idx parts).2.1, r.content.isEmpty = false) ∧
    (procH2s chap idx parts).2.2 = (procH2s chap idx parts).2.1.map
      fun r => (r.filename, htmlToXHTML (headedContent r.chapter r.title r.content) r.title) := by
  induction parts with
  | nil => intro idx; simp [procH2s, fileNames]
  | cons part parts ih =>
    intro idx
    cases hm : matchSec (("</h2").data) part with
    | none => simpa [procH2s, hm] using ih idx
    | some pr =>
      by_cases hc : (trimJs (truncEnd pr.2)).isEmpty
      · simpa [procH2s, hm, hc] using ih idx
      · obtain ⟨h1, h2, h3, h4⟩ := ih (idx + 1)
        refine ⟨?_, ?_, ?_, ?_⟩
        · simp only [procH2s, hm, hc, Bool.false_eq_true, if_false, List.length_cons]
          omega
        · simp only [procH2s, hm, hc, Bool.false_eq_true, if_false, List.length_cons,
            List.map_cons, fileNames]
          exact congrArg _ h2
        · simp only [procH2s, hm, hc, Bool.false_eq_true, if_false, List.mem_cons]
          rintro r (rfl | hr)
          · simpa using hc
          · exact h3 r hr
        · simp only [procH2s, hm, hc, Bool.false_eq_true, if_false, List.map_cons]
          exact congrArg _ h4

theorem procH1s_spec (parts : List (List Char)) : ∀ idx : Nat,
    (procH1s idx parts).1 = idx + (procH1s idx parts).2.1.length ∧
    (procH1s idx parts).2.1.map Chapter.filename =
      fileNames idx (procH1s idx parts).2.1.length ∧
    (∀ r ∈ (procH1s idx parts).2.1, r.content.isEmpty = false) ∧
    (procH1s idx parts).2.2 = (procH1s idx parts).2.1.map
      fun r => (r.filename, htmlToXHTML (headedContent r.chapter r.title r.content) r.title) := by
  induction parts with
  | nil => intro idx; simp [procH1s, fileNames]
  | cons part parts ih =>
    intro idx
    cases hm : matchSec (("</h1").data) part with
    | none => simpa [procH1s, hm] using ih idx
    | some pr =>
      obtain ⟨g1, g2, g3, g4⟩ :=
        procH2s_spec (trimJs pr.1) ((splitLit h2Sep pr.2).drop 1) idx
      obtain ⟨h1, h2, h3, h4⟩ := ih (procH2s (trimJs pr.1) idx ((splitLit h2Sep pr.2).drop 1)).1
      refine ⟨?_, ?_, ?_, ?_⟩
      · simp only [procH1s, hm, List.length_append]
        omega
      · simp only [procH1s, hm, List.length_append, List.map_append]
        rw [g2, h2, g1, fileNames_add]
      · simp only [procH1s, hm, List.mem_append]
        rintro r (hr | hr)
        · exact g3 r hr
        · exact h3 r hr
      · simp only [procH1s, hm, List.map_append]
        rw [g4, h4]

/-- Claim C4: emitted records carry the filenames `chapter1.xhtml`,
`chapter2.xhtml`, … contiguously in order (numbering has no gaps), and every
emitted record has nonempty (non-whitespace-only) truncated content — empty
sections produce no record and consume no number. -/
theorem claim_C4 (bodyContent : List Char) :
    (extractChapters bodyContent).map Chapter.filename =
      (List.range (extractChapters bodyContent).length).map
        (fun k => chapterFileName (k + 1)) ∧
    ∀ r ∈ extractChapters bodyContent, r.content.isEmpty = false := by
  obtain ⟨h1, h2, h3, h4⟩ := procH1s_spec ((splitLit h1Sep bodyContent).drop 1) 0
  refine ⟨?_, h3⟩
  rw [extractChapters, extractAll] at *
  rw [h2, fileNames_range]
  simp

/-- Claim C10: the emitted XHTML files are exactly, record by record, the
record's raw content prefixed with a regenerated `<h1>` chapter-group
heading and a regenerated `<h2>` section-title heading, then passed through
the HTML-to-XHTML normalisation and wrapped in the XHTML shell — never the
raw content fragment alone. -/
theorem claim_C10 (bodyContent : List Char) :
    extractFiles bodyContent = (extractChapters bodyContent).map
      fun r => (r.filename, htmlToXHTML (headedContent r.chapter r.title r.content) r.title) := by
  obtain ⟨h1, h2, h3, h4⟩ := procH1s_spec ((splitLit h1Sep bodyContent).drop 1) 0
  exact h4

/-! ## Navigation grouping (claim C5) -/

theorem navGo_run (rest : List Chapter) : ∀ (p : Chapter) (items nav : List Char),
    p.chapter ≠ [] → (∀ r ∈ rest, r.chapter ≠ []) →
    navGo nav p.chapter items (some p) rest =
      nav ++ specNavRun p.chapter items p rest := by
  induction rest with
  | nil =>
    intro p items nav hp _
    have hE : p.chapter.isEmpty = false := by
      cases hch : p.chapter with
      | nil => exact absurd hch hp
      | cons a t => simp [hch]
    simp [navGo, specNavRun, prevFile, hE]
  | cons c cs ih =>
    intro p items nav hp hr
    by_cases hc : c.chapter = p.chapter
    · have hcne : c.chapter ≠ [] := hc ▸ hp
      rw [navGo, if_pos hc, specNavRun, if_pos hc, ← hc]
      exact ih c (items ++ navItemStr c) nav hcne fun r h => hr r (List.mem_cons_of_mem _ h)
    · have hE : p.chapter.isEmpty = false := by
        cases hch : p.chapter with
        | nil => exact absurd hch hp
        | cons a t => simp [hch]
      have hcne : c.chapter ≠ [] := hr c (List.mem_cons_self _ _)
      rw [navGo, if_neg hc, specNavRun, if_neg hc]
      simp only [hE, Bool.false_eq_true, if_false, prevFile]
      rw [ih c (navItemStr c) _ hcne fun r h => hr r (List.mem_cons_of_mem _ h)]
      simp [List.append_assoc]

set_option maxRecDepth 100000

/-- Counterexample to claim C5 as stated: a record whose chapter-group is
the empty string collides with the loop's `currentChapter` sentinel, so the
record is dropped from the navigation list entirely instead of forming a
nested list. -/
theorem claim_C5_counterexample :
    navItemsOf navEmptyGroup = [] ∧
    specNav navEmptyGroup ≠ [] ∧
    createNav navEmptyGroup ≠ navDocOpen ++ specNav navEmptyGroup ++ navDocTail := by
  refine ⟨by decide, by decide, by decide⟩

/-- Claim C5, amended: provided every record's chapter-group name is
nonempty, the generated navigation document nests records into one ordered
sub-list per maximal run of consecutive records sharing a group — a new
group starts exactly when a record's group differs from the immediately
preceding record's group, so a name repeated non-contiguously yields two
separate nested lists (records with an empty group name, the sentinel
value, are dropped instead). -/
theorem claim_C5 (chs : List Chapter) (h : ∀ r ∈ chs, r.chapter ≠ []) :
    navItemsOf chs = specNav chs ∧
    createNav chs = navDocOpen ++ specNav chs ++ navDocTail := by
  have key : navItemsOf chs = specNav chs := by
    cases chs with
    | nil => decide
    | cons c cs =>
      have hcne : c.chapter ≠ [] := h c (List.mem_cons_self _ _)
      have hcond : ¬ c.chapter = ([] : List Char) := hcne
      rw [navItemsOf, navGo, if_neg hcond]
      simp only [List.isEmpty_nil, if_true, specNav]
      exact navGo_run cs c (navItemStr c) [] hcne
        fun r hr => h r (List.mem_cons_of_mem _ hr)
  exact ⟨key, by rw [createNav, key]⟩

theorem claim_C5_witness :
    (∀ r ∈ navSample, r.chapter ≠ []) ∧
    (navItemsOf navSample = specNav navSample ∧
      createNav navSample = navDocOpen ++ specNav navSample ++ navDocTail) :=
  ⟨by decide, claim_C5 navSample (by decide)⟩

/-! ## Package document manifest and spine (claim C6) -/

theorem opfAcc_spec (chs : List Chapter) : ∀ n : Nat,
    (opfAcc n chs).1 =
      List.flatten ((List.enumFrom n chs).map fun p => itemLineOf p.1 p.2) ∧
    (opfAcc n chs).2 =
      List.flatten ((List.range chs.length).map fun i => refLineOf (n + i)) := by
  induction chs with
  | nil => intro n; simp [opfAcc]
  | cons ch t ih =>
    intro n
    obtain ⟨h1, h2⟩ := ih (n + 1)
    constructor
    · simp [opfAcc, List.enumFrom, h1]
    · simp only [opfAcc, List.length_cons]
      rw [List.range_succ_eq_map]
      simp only [List.map_cons, List.map_map, List.flatten_cons, Nat.add_zero]
      have harg : ((fun i => refLineOf (n + i)) ∘ Nat.succ) =
          fun i => refLineOf (n + 1 + i) := by
        funext i
        simp only [Function.comp]
        congr 1
        omega
      rw [harg, h2]

/-- Claim C6: the generated package document is the fixed template around a
manifest holding exactly the navigation item, the stylesheet item and one
item per emitted chapter in record order, and a spine (with right-to-left
page progression in its opening tag) listing the navigation document first
marked non-linear followed by the chapter ids `chapter1`, `chapter2`, … in
record order. -/
theorem claim_C6 (ident date modified : List Char) (chs : List Chapter) :
    createOPF ident date modified chs =
      opfHead ident date modified ++ List.flatten (specManifestItems chs) ++
        opfMid ++ List.flatten (specSpineItems chs) ++ opfTail ∧
    (specManifestItems chs).length = chs.length + 2 ∧
    (specSpineItems chs).length = chs.length + 1 ∧
    specSpineItems chs =
      navSpineLine :: (List.range chs.length).map fun i => refLineOf (i + 1) := by
  obtain ⟨h1, h2⟩ := opfAcc_spec chs 1
  refine ⟨?_, ?_, ?_, rfl⟩
  · rw [createOPF, specManifestItems, specSpineItems]
    simp only [List.flatten, h1, h2]
    have harg : (fun i => refLineOf (1 + i)) = fun i => refLineOf (i + 1) := by
      funext i
      congr 1
      omega
    rw [harg]
    simp [List.append_assoc]
  · simp [specManifestItems]
  · simp [specSpineItems]

/-! ## Idempotence of the contributor/date insertions (claim C7) -/

theorem litStrip_some (pat : List Char) : ∀ s r, litStrip pat s = some r → s = pat ++ r := by
  induction pat with
  | nil =>
    intro s r h
    simp [litStrip] at h
    simp [h]
  | cons p ps ih =>
    intro s r h
    cases s with
    | nil => simp [litStrip] at h
    | cons c cs =>
      by_cases hpc : p = c
      · simp only [litStrip, hpc, if_true] at h
        rw [List.cons_append, ← ih cs r h, hpc]
      · simp [litStrip, hpc] at h

theorem litStrip_isSome (pat : List Char) : ∀ s,
    (litStrip pat s).isSome = true ↔ pat <+: s := by
  induction pat with
  | nil => intro s; simp [litStrip]
  | cons p ps ih =>
    intro s
    cases s with
    | nil => simp [litStrip]
    | cons c cs =>
      by_cases hpc : p = c
      · simp [litStrip, hpc, List.cons_prefix_cons, ih cs]
      · simp [litStrip, hpc, List.cons_prefix_cons]

theorem findLit_some (pat : List Char) : ∀ s pr, findLit pat s = some pr →
    s = pr.1 ++ pat ++ pr.2 := by
  intro s
  induction s with
  | nil =>
    intro pr h
    cases hls : litStrip pat [] with
    | none => simp [findLit, hls] at h
    | some r =>
      simp only [findLit, hls, Option.some.injEq] at h
      rw [← h]
      simpa using litStrip_some pat [] r hls
  | cons c cs ih =>
    intro pr h
    cases hls : litStrip pat (c :: cs) with
    | some r =>
      simp only [findLit, hls, Option.some.injEq] at h
      rw [← h]
      simpa using litStrip_some pat (c :: cs) r hls
    | none =>
      simp only [findLit, hls, Option.map_eq_some'] at h
      obtain ⟨pr', hpr', rfl⟩ := h
      simp [ih pr' hpr']

theorem containsLit_iff (pat : List Char) : ∀ s,
    containsLit s pat = true ↔ pat <:+: s := by
  intro s
  induction s with
  | nil =>
    cases hls : litStrip pat [] with
    | none =>
      simp only [containsLit, findLit, hls, Option.isSome_none, Bool.false_eq_true,
        false_iff]
      intro hinf
      have hpat : pat = [] := by simpa using hinf
      rw [hpat] at hls
      simp [litStrip] at hls
    | some r =>
      simp only [containsLit, findLit, hls, Option.isSome_some, true_iff]
      have := litStrip_some pat [] r hls
      have hpat : pat = [] := by
        cases pat with
        | nil => rfl
        | cons a t => simp at this
      simp [hpat]
  | cons c cs ih =>
    cases hls : litStrip pat (c :: cs) with
    | some r =>
      simp only [containsLit, findLit, hls, Option.isSome_some, true_iff]
      exact ((litStrip_isSome pat (c :: cs)).mp (by simp [hls])).isInfix
    | none =>
      have hnp : ¬ pat <+: (c :: cs) := by
        rw [← litStrip_isSome pat (c :: cs)]
        simp [hls]
      have : containsLit (c :: cs) pat = containsLit cs pat := by
        simp [containsLit, findLit, hls]
      rw [this, ih, List.infix_cons_iff]
      constructor
      · exact Or.inr
      · rintro (hpre | hinf)
        · exact absurd hpre hnp
        · exact hinf

theorem take_append_small (l₁ : List Char) : ∀ (l₂ : List Char) (n : Nat),
    n ≤ l₁.length → (l₁ ++ l₂).take n = l₁.take n := by
  induction l₁ with
  | nil =>
    intro l₂ n h
    simp at h
    simp [h]
  | cons a t ih =>
    intro l₂ n h
    cases n with
    | zero => simp
    | succ n =>
      simp only [List.cons_append, List.take_succ_cons]
      rw [ih l₂ n (by simpa using h)]

theorem mem_of_prefix_long (a : List Char) : ∀ (M p b : List Char),
    M <+: a ++ p ++ b → a.length < M.length → p ≠ [] →
    ∃ ch, ch ∈ M ∧ ch ∈ p := by
  induction a with
  | nil =>
    intro M p b hpre hlen hp
    cases p with
    | nil => exact absurd rfl hp
    | cons q p' =>
      cases M with
      | nil => simp at hlen
      | cons m M' =>
        rw [List.nil_append, List.cons_append] at hpre
        obtain ⟨he, -⟩ := List.cons_prefix_cons.mp hpre
        exact ⟨q, by rw [← he]; exact List.mem_cons_self _ _, List.mem_cons_self _ _⟩
  | cons x a' ih =>
    intro M p b hpre hlen hp
    cases M with
    | nil => simp at hlen
    | cons m M' =>
      have hpre' : m :: M' <+: x :: (a' ++ p ++ b) := by
        simpa [List.cons_append] using hpre
      obtain ⟨-, htail⟩ := List.cons_prefix_cons.mp hpre'
      have hlen' : a'.length < M'.length := by
        simp only [List.length_cons] at hlen
        omega
      obtain ⟨ch, hM, hP⟩ := ih M' p b htail hlen' hp
      exact ⟨ch, List.mem_cons_of_mem _ hM, hP⟩

theorem infix_drop_disjoint (p : List Char) : ∀ (b M : List Char),
    M <:+: p ++ b → (∀ ch ∈ M, ch ∉ p) → M <:+: b := by
  induction p with
  | nil =>
    intro b M h _
    simpa using h
  | cons q p' ih =>
    intro b M h hdisj
    rw [List.cons_append] at h
    rcases List.infix_cons_iff.mp h with hpre | hinf
    · cases M with
      | nil => exact ⟨[], b, by simp⟩
      | cons m M' =>
        obtain ⟨he, -⟩ := List.cons_prefix_cons.mp hpre
        have := hdisj m (List.mem_cons_self _ _)
        rw [he] at this
        exact absurd (List.mem_cons_self q p') this
    · exact ih b M hinf fun ch h1 hin => hdisj ch h1 (List.mem_cons_of_mem _ hin)

theorem infix_split_of_disjoint (a : List Char) : ∀ (p b M : List Char),
    M <:+: a ++ p ++ b → (∀ ch ∈ M, ch ∉ p) → p ≠ [] →
    M <:+: a ∨ M <:+: b := by
  induction a with
  | nil =>
    intro p b M h hdisj hp
    exact Or.inr (infix_drop_disjoint p b M (by simpa using h) hdisj)
  | cons x a' ih =>
    intro p b M h hdisj hp
    have h' : M <:+: x :: (a' ++ p ++ b) := by
      simpa [List.cons_append] using h
    rcases List.infix_cons_iff.mp h' with hpre | hinf
    · by_cases hlen : M.length ≤ a'.length + 1
      · left
        rw [List.prefix_iff_eq_take.mp hpre]
        have hx : x :: (a' ++ p ++ b) = (x :: a') ++ (p ++ b) := by
          simp
        rw [hx, take_append_small (x :: a') (p ++ b) M.length (by simpa using hlen)]
        exact (List.take_prefix _ _).isInfix
      · exfalso
        have hpre' : M <+: (x :: a') ++ p ++ b := by
          simpa [List.cons_append, List.append_assoc] using hpre
        obtain ⟨ch, hM, hP⟩ :=
          mem_of_prefix_long (x :: a') M p b hpre' (by simp; omega) hp
        exact hdisj ch hM hP
    · rcases ih p b M hinf hdisj hp with h1 | h1
      · exact Or.inl (List.infix_cons h1)
      · exact Or.inr h1

theorem infix_extend_left {t a : List Char} (h : t <:+: a) (z : List Char) :
    t <:+: a ++ z :=
  h.trans (List.prefix_append a z).isInfix

theorem infix_extend_right {t b : List Char} (h : t <:+: b) (z : List Char) :
    t <:+: z ++ b :=
  h.trans (List.suffix_append z b).isInfix

theorem replaceFirst_rep_infix (pat rep s t : List Char)
    (ht : t <:+: rep) (hf : (findLit pat s).isSome = true) :
    containsLit (replaceFirstLit pat rep s) t = true := by
  cases hfs : findLit pat s with
  | none => rw [hfs] at hf; simp at hf
  | some pr =>
    rw [replaceFirstLit, hfs]
    exact (containsLit_iff t _).mpr
      (by simpa [List.append_assoc] using infix_extend_right (infix_extend_left ht pr.2) pr.1)

theorem replaceFirst_keeps (pat rep s t : List Char)
    (ht : containsLit s t = true)
    (hdisj : ∀ ch ∈ t, ch ∉ pat) (hp : pat ≠ []) :
    containsLit (replaceFirstLit pat rep s) t = true := by
  cases hfs : findLit pat s with
  | none => rw [replaceFirstLit, hfs]; exact ht
  | some pr =>
    rw [replaceFirstLit, hfs]
    have hinf : t <:+: pr.1 ++ pat ++ pr.2 := by
      rw [← findLit_some pat s pr hfs]
      exact (containsLit_iff t s).mp ht
    rcases infix_split_of_disjoint pr.1 pat pr.2 t hinf hdisj hp with h1 | h1
    · exact (containsLit_iff t _).mpr
        (by simpa [List.append_assoc] using infix_extend_left h1 (rep ++ pr.2))
    · exact (containsLit_iff t _).mpr
        (by simpa [List.append_assoc] using infix_extend_right h1 (pr.1 ++ rep))

theorem addContributor_cases (x : List Char) :
    containsLit (addContributor x) translatorMarker = true ∨
    (addContributor x = x ∧ containsLit x metadataClose = false) := by
  by_cases hm : containsLit x translatorMarker = true
  · left
    simp [addContributor, hm]
  · cases hf : findLit metadataClose x with
    | none =>
      right
      constructor
      · simp [addContributor, hm, replaceFirstLit, hf]
      · simp [containsLit, hf]
    | some pr =>
      left
      simp only [addContributor, hm, Bool.false_eq_true, if_false]
      exact replaceFirst_rep_infix metadataClose _ x translatorMarker
        (by
          have h1 : translatorMarker <:+: ("    <dc:contributor>ترجمه: ").data := by
            have := (containsLit_iff translatorMarker
              (("    <dc:contributor>ترجمه: ").data)).mp (by decide)
            exact this
          simpa [List.append_assoc] using infix_extend_left h1
            (translatorV ++ (("</dc:contributor>\n  ").data ++ metadataClose)))
        (by simp [hf])

theorem addDate_keeps_marker (today x : List Char)
    (h : containsLit x translatorMarker = true) :
    containsLit (addDate today x) translatorMarker = true := by
  by_cases hd : containsLit x dateMarker = true
  · simpa [addDate, hd] using h
  · simp only [addDate, hd, Bool.false_eq_true, if_false]
    exact replaceFirst_keeps metadataClose _ x translatorMarker h (by decide) (by decide)

theorem addDate_cases (today x : List Char) :
    containsLit (addDate today x) dateMarker = true ∨ addDate today x = x := by
  by_cases hd : containsLit x dateMarker = true
  · right
    simp [addDate, hd]
  · cases hf : findLit metadataClose x with
    | none =>
      right
      simp [addDate, hd, replaceFirstLit, hf]
    | some pr =>
      left
      simp only [addDate, hd, Bool.false_eq_true, if_false]
      exact replaceFirst_rep_infix metadataClose _ x dateMarker
        (by
          have h1 : dateMarker <:+: ("    <dc:date>").data := by
            exact (containsLit_iff dateMarker (("    <dc:date>").data)).mp (by decide)
          simpa [List.append_assoc] using infix_extend_left h1
            (today ++ (("</dc:date>\n  ").data ++ metadataClose)))
        (by simp [hf])

theorem addContributor_of_marker (x : List Char)
    (h : containsLit x translatorMarker = true) : addContributor x = x := by
  simp [addContributor, h]

theorem addDate_of_marker (today x : List Char)
    (h : containsLit x dateMarker = true) : addDate today x = x := by
  simp [addDate, h]

theorem addDate_of_no_close (today z : List Char)
    (hz : containsLit z metadataClose = false) : addDate today z = z := by
  by_cases hd : containsLit z dateMarker = true
  · exact addDate_of_marker today z hd
  · have hf : findLit metadataClose z = none := by
      cases hf : findLit metadataClose z with
      | none => rfl
      | some pr => rw [containsLit, hf] at hz; simp at hz
    simp [addDate, hd, replaceFirstLit, hf]

/-- Claim C7: running the contributor (translator) and date insertion steps
twice in succession is idempotent — the second run finds the inserted
markers (or the same absent closing tag) and changes nothing. -/
theorem claim_C7 (today c : List Char) :
    contribDate today (contribDate today c) = contribDate today c := by
  have step1 : addContributor (addDate today (addContributor c)) =
      addDate today (addContributor c) := by
    rcases addContributor_cases c with hMx | ⟨hxc, hclose⟩
    · exact addContributor_of_marker _ (addDate_keeps_marker today (addContributor c) hMx)
    · rw [hxc, addDate_of_no_close today c hclose, hxc]
  have step2 : addDate today (addDate today (addContributor c)) =
      addDate today (addContributor c) := by
    rcases addDate_cases today (addContributor c) with hDy | hyx
    · exact addDate_of_marker _ _ hDy
    · rw [hyx, hyx]
  show addDate today (addContributor (addDate today (addContributor c))) =
    addDate today (addContributor c)
  rw [step1]
  exact step2

/-! ## The substitution engine on canonical documents (claim C1) -/

theorem ciEq_refl (a : Char) : ciEq a a = true := by
  simp [ciEq]

theorem ciStrip_self_append (t : List Char) : ∀ r, ciStrip t (t ++ r) = some r := by
  induction t with
  | nil => intro r; simp [ciStrip]
  | cons p ps ih => intro r; simp [ciStrip, ciEq_refl, ih]

theorem valueClean_cons {ch : Char} {cs : List Char} (h : valueClean (ch :: cs) = true) :
    ciEq '<' ch = false ∧ isLineTerm ch = false ∧ valueClean cs = true := by
  simp only [valueClean, List.all_cons, Bool.and_eq_true, Bool.not_eq_true'] at h
  exact ⟨h.1.1, h.1.2, h.2⟩

theorem ciMismatch_strip (pat : List Char) : ∀ s, ciMismatch pat s = true →
    ∀ r, ciStrip pat (s ++ r) = none := by
  induction pat with
  | nil => intro s h; simp [ciMismatch] at h
  | cons p ps ih =>
    intro s h r
    cases s with
    | nil => simp [ciMismatch] at h
    | cons c cs =>
      by_cases hpc : ciEq p c = true
      · simp only [ciMismatch, hpc, if_true] at h
        simp only [List.cons_append, ciStrip, hpc, if_true]
        exact ih cs h r
      · have hf : ciEq p c = false := by simpa using hpc
        simp [List.cons_append, ciStrip, hf]

theorem matchTagAt_none_of_strip {tag s : List Char}
    (h : ciStrip ('<' :: tag) s = none) : matchTagAt tag s = none := by
  simp [matchTagAt, h]

theorem skips_nil (tag : List Char) : skipsP tag [] := by
  intro r
  cases h : findTagSplit tag r <;> simp [h]

theorem skips_cons_of_none (tag : List Char) (c : Char) (cs : List Char)
    (hmatch : ∀ r, matchTagAt tag (c :: (cs ++ r)) = none)
    (hcs : skipsP tag cs) : skipsP tag (c :: cs) := by
  intro r
  rw [List.cons_append, findTagSplit]
  rw [hmatch r, hcs r]
  cases h : findTagSplit tag r <;> simp [h]

theorem segAllFail_skips (tag : List Char) : ∀ A, segAllFail tag A = true →
    skipsP tag A := by
  intro A
  induction A with
  | nil => intro _; exact skips_nil tag
  | cons c cs ih =>
    intro h
    simp only [segAllFail, Bool.and_eq_true] at h
    refine skips_cons_of_none tag c cs (fun r => ?_) (ih h.2)
    exact matchTagAt_none_of_strip (by
      have := ciMismatch_strip ('<' :: tag) (c :: cs) h.1 r
      simpa [List.cons_append] using this)

theorem skips_append (tag A B : List Char)
    (hA : skipsP tag A) (hB : skipsP tag B) : skipsP tag (A ++ B) := by
  intro r
  rw [List.append_assoc, hA (B ++ r), hB r]
  cases h : findTagSplit tag r <;> simp [List.append_assoc]

theorem valueClean_skips (tag : List Char) : ∀ v, valueClean v = true →
    skipsP tag v := by
  intro v
  induction v with
  | nil => intro _; exact skips_nil tag
  | cons ch cs ih =>
    intro h
    obtain ⟨hch, hlt, hrest⟩ := valueClean_cons h
    refine skips_cons_of_none tag ch cs (fun r => ?_) (ih hrest)
    exact matchTagAt_none_of_strip (by simp [ciStrip, hch])

theorem lazyClose_skip_clean (cl : List Char) : ∀ v, valueClean v = true →
    ∀ r, lazyClose ('<' :: cl) (v ++ r) = lazyClose ('<' :: cl) r := by
  intro v
  induction v with
  | nil => intro _ r; simp
  | cons ch cs ih =>
    intro h r
    obtain ⟨hch, hlt, hrest⟩ := valueClean_cons h
    have hstrip : ciStrip ('<' :: cl) (ch :: (cs ++ r)) = none := by
      simp [ciStrip, hch]
    rw [List.cons_append, lazyClose]
    rw [hstrip, hlt]
    simp only [Bool.false_eq_true, if_false]
    exact ih hrest r

theorem lazyClose_at_closer (cl : List Char) (B : List Char) :
    lazyClose ('<' :: cl) (('<' :: cl) ++ B) = some B := by
  have h2 : ciStrip ('<' :: cl) ('<' :: (cl ++ B)) = some B := by
    simpa using ciStrip_self_append ('<' :: cl) B
  rw [List.cons_append, lazyClose, h2]

theorem matchElem (tag v B : List Char) (hv : valueClean v = true) :
    matchTagAt tag (elemCore tag v ++ B) = some B := by
  have hshape : elemCore tag v ++ B =
      ('<' :: tag) ++ ('>' :: (v ++ (closeOf tag ++ B))) := by
    simp [elemCore, List.append_assoc]
  rw [hshape, matchTagAt, ciStrip_self_append]
  have hdrop : List.dropWhile (fun c => c != '>') ('>' :: (v ++ (closeOf tag ++ B))) =
      '>' :: (v ++ (closeOf tag ++ B)) := by
    simp [List.dropWhile]
  dsimp only
  rw [hdrop]
  show lazyClose (closeOf tag) (v ++ (closeOf tag ++ B)) = some B
  rw [show closeOf tag = '<' :: ('/' :: (tag ++ ['>'])) from rfl]
  rw [lazyClose_skip_clean _ v hv]
  exact lazyClose_at_closer _ B

theorem findTagSplit_none_of_skips (tag B : List Char) (hB : skipsP tag B) :
    findTagSplit tag B = none := by
  have h := hB []
  simpa [findTagSplit] using h

theorem tagGsubGo_of_none (tag rep : List Char) (f : Nat) (s : List Char)
    (h : findTagSplit tag s = none) : tagGsubGo tag rep f s = s := by
  cases f with
  | zero => rfl
  | succ f => simp [tagGsubGo, h]

theorem updateStep (tag v nv A B : List Char)
    (hA : skipsP tag A) (hB : skipsP tag B) (hv : valueClean v = true) :
    updateMetadataTag (A ++ (elemCore tag v ++ B)) tag [] nv =
      A ++ (elemCore tag nv ++ B) := by
  have hmid : findTagSplit tag (elemCore tag v ++ B) = some ([], B) := by
    have hcons : elemCore tag v ++ B =
        '<' :: ((tag ++ '>' :: (v ++ closeOf tag)) ++ B) := by
      simp [elemCore]
    rw [hcons, findTagSplit, ← hcons, matchElem tag v B hv]
  have hfind : findTagSplit tag (A ++ (elemCore tag v ++ B)) = some (A, B) := by
    rw [hA (elemCore tag v ++ B), hmid]
    simp
  have hpos : 0 < (A ++ (elemCore tag v ++ B)).length := by
    simp [elemCore]
  obtain ⟨f, hf⟩ := Nat.exists_eq_succ_of_ne_zero (Nat.pos_iff_ne_zero.mp hpos)
  simp only [updateMetadataTag, hfind, Option.isSome_some, if_true]
  rw [tagGsub, hf, tagGsubGo, hfind]
  dsimp only
  rw [tagGsubGo_of_none tag _ f B (findTagSplit_none_of_skips tag B hB)]
  simp [elemCore, List.append_assoc]

/-- `elemLine` split into segments suitable for the skip combinators. -/
theorem elemLine_decomp (tg v : List Char) :
    elemLine tg v = ('<' :: tg ++ ['>']) ++ (v ++ (closeOf tg ++ ['\n'])) := by
  simp [elemLine, elemCore, List.append_assoc]

theorem skips_elemLine (tag tg v : List Char)
    (h1 : segAllFail tag ('<' :: tg ++ ['>']) = true)
    (hv : valueClean v = true)
    (h2 : segAllFail tag (closeOf tg ++ ['\n']) = true) :
    skipsP tag (elemLine tg v) := by
  rw [elemLine_decomp]
  exact skips_append tag _ _ (segAllFail_skips tag _ h1)
    (skips_append tag _ _ (valueClean_skips tag v hv) (segAllFail_skips tag _ h2))

/-- Counterexample to claim C1 as stated: on a document with two `dc:title`
elements the global (`g`-flag) replacement rewrites both occurrences — the
new title appears twice (not exactly once) and the second occurrence is not
left intact (so not only the first complete occurrence is replaced). -/
theorem claim_C1_counterexample :
    countOccLit (updateAllFields dupDoc) (("<dc:title>").data) = 2 ∧
    containsLit (updateAllFields dupDoc) (("<dc:title>b</dc:title>").data) = false :=
  ⟨by decide, by decide⟩

/-- Claim C1, amended: on canonical package-metadata documents — a metadata
block holding each of the seven fields exactly once as a single-line element
with a markup-free value — the substitution engine replaces each field's
single occurrence with the freshly built tag, so each field appears exactly
once with the new value; when none of the fields is present, each tag is
inserted exactly once before the metadata closing marker.  (In general the
replacement is global: every complete occurrence is rewritten, not only the
first, as the counterexample shows.) -/
theorem claim_C1 (t c l p r d s : List Char)
    (ht : valueClean t = true) (hc : valueClean c = true) (hl : valueClean l = true)
    (hp : valueClean p = true) (hr : valueClean r = true) (hd : valueClean d = true)
    (hs : valueClean s = true) :
    updateAllFields (mkDoc t c l p r d s) =
      mkDoc titleV authorV languageV publisherV rightsV descriptionV subjectV ∧
    (∀ pr ∈ sevenFields,
      countOccLit (mkDoc titleV authorV languageV publisherV rightsV descriptionV subjectV)
        (elemCore pr.1 pr.2) = 1) ∧
    (∀ pr ∈ sevenFields,
      countOccLit (updateAllFields emptyMd) (elemCore pr.1 pr.2) = 1) := by
  refine ⟨?_, by decide, by decide⟩
  have step1 : updateMetadataTag (mkDoc t c l p r d s) tagTitle [] titleV =
      mkDoc titleV c l p r d s := by
    have hB : skipsP tagTitle (['\n'] ++ (elemLine tagCreator c ++ (elemLine tagLanguage l ++
        (elemLine tagPublisher p ++ (elemLine tagRights r ++ (elemLine tagDescription d ++
        (elemLine tagSubject s ++ mdCloseLine))))))) :=
      skips_append _ _ _ (segAllFail_skips _ _ (by decide))
        (skips_append _ _ _ (skips_elemLine _ _ _ (by decide) hc (by decide))
        (skips_append _ _ _ (skips_elemLine _ _ _ (by decide) hl (by decide))
        (skips_append _ _ _ (skips_elemLine _ _ _ (by decide) hp (by decide))
        (skips_append _ _ _ (skips_elemLine _ _ _ (by decide) hr (by decide))
        (skips_append _ _ _ (skips_elemLine _ _ _ (by decide) hd (by decide))
        (skips_append _ _ _ (skips_elemLine _ _ _ (by decide) hs (by decide))
          (segAllFail_skips _ _ (by decide))))))))
    have hshape : mkDoc t c l p r d s = mdOpen ++ (elemCore tagTitle t ++
        (['\n'] ++ (elemLine tagCreator c ++ (elemLine tagLanguage l ++
        (elemLine tagPublisher p ++ (elemLine tagRights r ++ (elemLine tagDescription d ++
        (elemLine tagSubject s ++ mdCloseLine)))))))) := by
      simp [mkDoc, elemLine, List.append_assoc]
    rw [hshape, updateStep tagTitle t titleV mdOpen _
      (segAllFail_skips _ _ (by decide)) hB ht]
    simp [mkDoc, elemLine, List.append_assoc]
  have step2 : updateMetadataTag (mkDoc titleV c l p r d s) tagCreator [] authorV =
      mkDoc titleV authorV l p r d s := by
    have hB : skipsP tagCreator (['\n'] ++ (elemLine tagLanguage l ++
        (elemLine tagPublisher p ++ (elemLine tagRights r ++ (elemLine tagDescription d ++
        (elemLine tagSubject s ++ mdCloseLine)))))) :=
      skips_append _ _ _ (segAllFail_skips _ _ (by decide))
        (skips_append _ _ _ (skips_elemLine _ _ _ (by decide) hl (by decide))
        (skips_append _ _ _ (skips_elemLine _ _ _ (by decide) hp (by decide))
        (skips_append _ _ _ (skips_elemLine _ _ _ (by decide) hr (by decide))
        (skips_append _ _ _ (skips_elemLine _ _ _ (by decide) hd (by decide))
        (skips_append _ _ _ (skips_elemLine _ _ _ (by decide) hs (by decide))
          (segAllFail_skips _ _ (by decide)))))))
    have hshape : mkDoc titleV c l p r d s = (mdOpen ++ elemLine tagTitle titleV) ++
        (elemCore tagCreator c ++ (['\n'] ++ (elemLine tagLanguage l ++
        (elemLine tagPublisher p ++ (elemLine tagRights r ++ (elemLine tagDescription d ++
        (elemLine tagSubject s ++ mdCloseLine))))))) := by
      simp [mkDoc, elemLine, List.append_assoc]
    rw [hshape, updateStep tagCreator c authorV (mdOpen ++ elemLine tagTitle titleV) _
      (segAllFail_skips _ _ (by decide)) hB hc]
    simp [mkDoc, elemLine, List.append_assoc]
  have step3 : updateMetadataTag (mkDoc titleV authorV l p r d s) tagLanguage [] languageV =
      mkDoc titleV authorV languageV p r d s := by
    have hB : skipsP tagLanguage (['\n'] ++ (elemLine tagPublisher p ++
        (elemLine tagRights r ++ (elemLine tagDescription d ++
        (elemLine tagSubject s ++ mdCloseLine))))) :=
      skips_append _ _ _ (segAllFail_skips _ _ (by decide))
        (skips_append _ _ _ (skips_elemLine _ _ _ (by decide) hp (by decide))
        (skips_append _ _ _ (skips_elemLine _ _ _ (by decide) hr (by decide))
        (skips_append _ _ _ (skips_elemLine _ _ _ (by decide) hd (by decide))
        (skips_append _ _ _ (skips_elemLine _ _ _ (by decide) hs (by decide))
          (segAllFail_skips _ _ (by decide))))))
    have hshape : mkDoc titleV authorV l p r d s =
        (mdOpen ++ elemLine tagTitle titleV ++ elemLine tagCreator authorV) ++
        (elemCore tagLanguage l ++ (['\n'] ++ (elemLine tagPublisher p ++
        (elemLine tagRights r ++ (elemLine tagDescription d ++
        (elemLine tagSubject s ++ mdCloseLine)))))) := by
      simp [mkDoc, elemLine, List.append_assoc]
    rw [hshape, updateStep tagLanguage l languageV
      (mdOpen ++ elemLine tagTitle titleV ++ elemLine tagCreator authorV) _
      (segAllFail_skips _ _ (by decide)) hB hl]
    simp [mkDoc, elemLine, List.append_assoc]
  have step4 : updateMetadataTag (mkDoc titleV authorV languageV p r d s)
      tagPublisher [] publisherV = mkDoc titleV authorV languageV publisherV r d s := by
    have hB : skipsP tagPublisher (['\n'] ++ (elemLine tagRights r ++
        (elemLine tagDescription d ++ (elemLine tagSubject s ++ mdCloseLine)))) :=
      skips_append _ _ _ (segAllFail_skips _ _ (by decide))
        (skips_append _ _ _ (skips_elemLine _ _ _ (by decide) hr (by decide))
        (skips_append _ _ _ (skips_elemLine _ _ _ (by decide) hd (by decide))
        (skips_append _ _ _ (skips_elemLine _ _ _ (by decide) hs (by decide))
          (segAllFail_skips _ _ (by decide)))))
    have hshape : mkDoc titleV authorV languageV p r d s =
        (mdOpen ++ elemLine tagTitle titleV ++ elemLine tagCreator authorV ++
          elemLine tagLanguage languageV) ++
        (elemCore tagPublisher p ++ (['\n'] ++ (elemLine tagRights r ++
        (elemLine tagDescription d ++ (elemLine tagSubject s ++ mdCloseLine))))) := by
      simp [mkDoc, elemLine, List.append_assoc]
    rw [hshape, updateStep tagPublisher p publisherV
      (mdOpen ++ elemLine tagTitle titleV ++ elemLine tagCreator authorV ++
        elemLine tagLanguage languageV) _
      (segAllFail_skips _ _ (by decide)) hB hp]
    simp [mkDoc, elemLine, List.append_assoc]
  have step5 : updateMetadataTag (mkDoc titleV authorV languageV publisherV r d s)
      tagRights [] rightsV = mkDoc titleV authorV languageV publisherV rightsV d s := by
    have hB : skipsP tagRights (['\n'] ++ (elemLine tagDescription d ++
        (elemLine tagSubject s ++ mdCloseLine))) :=
      skips_append _ _ _ (segAllFail_skips _ _ (by decide))
        (skips_append _ _ _ (skips_elemLine _ _ _ (by decide) hd (by decide))
        (skips_append _ _ _ (skips_elemLine _ _ _ (by decide) hs (by decide))
          (segAllFail_skips _ _ (by decide))))
    have hshape : mkDoc titleV authorV languageV publisherV r d s =
        (mdOpen ++ elemLine tagTitle titleV ++ elemLine tagCreator authorV ++
          elemLine tagLanguage languageV ++ elemLine tagPublisher publisherV) ++
        (elemCore tagRights r ++ (['\n'] ++ (elemLine tagDescription d ++
        (elemLine tagSubject s ++ mdCloseLine)))) := by
      simp [mkDoc, elemLine, List.append_assoc]
    rw [hshape, updateStep tagRights r rightsV
      (mdOpen ++ elemLine tagTitle titleV ++ elemLine tagCreator authorV ++
        elemLine tagLanguage languageV ++ elemLine tagPublisher publisherV) _
      (segAllFail_skips _ _ (by decide)) hB hr]
    simp [mkDoc, elemLine, List.append_assoc]
  have step6 : updateMetadataTag (mkDoc titleV authorV languageV publisherV rightsV d s)
      tagDescription [] descriptionV =
      mkDoc titleV authorV languageV publisherV rightsV descriptionV s := by
    have hB : skipsP tagDescription (['\n'] ++ (elemLine tagSubject s ++ mdCloseLine)) :=
      skips_append _ _ _ (segAllFail_skips _ _ (by decide))
        (skips_append _ _ _ (skips_elemLine _ _ _ (by decide) hs (by decide))
          (segAllFail_skips _ _ (by decide)))
    have hshape : mkDoc titleV authorV languageV publisherV rightsV d s =
        (mdOpen ++ elemLine tagTitle titleV ++ elemLine tagCreator authorV ++
          elemLine tagLanguage languageV ++ elemLine tagPublisher publisherV ++
          elemLine tagRights rightsV) ++
        (elemCore tagDescription d ++ (['\n'] ++ (elemLine tagSubject s ++ mdCloseLine))) := by
      simp [mkDoc, elemLine, List.append_assoc]
    rw [hshape, updateStep tagDescription d descriptionV
      (mdOpen ++ elemLine tagTitle titleV ++ elemLine tagCreator authorV ++
        elemLine tagLanguage languageV ++ elemLine tagPublisher publisherV ++
        elemLine tagRights rightsV) _
      (segAllFail_skips _ _ (by decide)) hB hd]
    simp [mkDoc, elemLine, List.append_assoc]
  have step7 : updateMetadataTag
      (mkDoc titleV authorV languageV publisherV rightsV descriptionV s)
      tagSubject [] subjectV =
      mkDoc titleV authorV languageV publisherV rightsV descriptionV subjectV := by
    have hB : skipsP tagSubject (['\n'] ++ mdCloseLine) :=
      segAllFail_skips _ _ (by decide)
    have hshape : mkDoc titleV authorV languageV publisherV rightsV descriptionV s =
        (mdOpen ++ elemLine tagTitle titleV ++ elemLine tagCreator authorV ++
          elemLine tagLanguage languageV ++ elemLine tagPublisher publisherV ++
          elemLine tagRights rightsV ++ elemLine tagDescription descriptionV) ++
        (elemCore tagSubject s ++ (['\n'] ++ mdCloseLine)) := by
      simp [mkDoc, elemLine, List.append_assoc]
    rw [hshape, updateStep tagSubject s subjectV
      (mdOpen ++ elemLine tagTitle titleV ++ elemLine tagCreator authorV ++
        elemLine tagLanguage languageV ++ elemLine tagPublisher publisherV ++
        elemLine tagRights rightsV ++ elemLine tagDescription descriptionV) _
      (segAllFail_skips _ _ (by decide)) hB hs]
    simp [mkDoc, elemLine, List.append_assoc]
  show updateAllFields (mkDoc t c l p r d s) = _
  simp only [updateAllFields]
  rw [step1, step2, step3, step4, step5, step6, step7]

theorem claim_C1_witness :
    valueClean (("t0").data) = true ∧
    updateAllFields (mkDoc (("t0").data) (("c0").data) (("l0").data) (("p0").data)
        (("r0").data) (("d0").data) (("s0").data)) =
      mkDoc titleV authorV languageV publisherV rightsV descriptionV subjectV :=
  ⟨by decide, (claim_C1 _ _ _ _ _ _ _ (by decide) (by decide) (by decide) (by decide)
    (by decide) (by decide) (by decide)).1⟩

end LSB
